import Mathlib

/-!
Shallow embedding of the graph model, filter engine, layout engine, force
simulation and viewport zoom of the repository (file
src/components/graph-visualization.tsx), together with theorems checking
the specification claims about them.

Conventions of the embedding:
* JavaScript numbers are modelled as exact rationals; the library functions
  Math.sqrt, Math.cos, Math.sin, Math.PI and Math.random, which the claims
  never constrain numerically, are abstracted as explicit function or value
  parameters so that every definition stays computable.
* JavaScript strings are Lean strings (one Char per UTF-16 unit).
* The insertion-ordered Map and Set of the source are modelled as lists with
  insert-if-absent, which preserves the iteration order of the source.
* Array.prototype.sort with a comparator is stable in ECMAScript; it is
  modelled by List.mergeSort, which is stable as well.
-/

namespace CsvRdf

/-- Fact record produced by the mapping stage (interface Triplet). -/
structure Triplet where
  subject : String
  predicate : String
  object : String
  dataType : Option String := none
deriving DecidableEq

/-- Role of a graph node (field type of interface Node). -/
inductive NodeType where
  | subject
  | object
deriving DecidableEq

/-- Graph node (interface Node). Positions and velocities are rationals. -/
structure Node where
  id : String
  label : String
  type : NodeType
  x : ℚ
  y : ℚ
  vx : Option ℚ := none
  vy : Option ℚ := none
  connections : ℕ
  visible : Bool
  clusterId : Option String := none
deriving DecidableEq

/-- Graph edge (interface Edge). -/
structure Edge where
  source : String
  target : String
  label : String
  predicate : String
  visible : Bool
  weight : ℚ
deriving DecidableEq

/-- Layout strategy tag (field layoutType of interface GraphFilters). -/
inductive LayoutType where
  | force
  | circular
  | hierarchical
  | grid
deriving DecidableEq

/-- Filter criteria (interface GraphFilters). -/
structure GraphFilters where
  predicates : List String
  nodeTypes : List NodeType
  minConnections : ℕ
  maxConnections : ℕ
  showLabels : Bool
  showIsolatedNodes : Bool
  clusterByPredicate : Bool
  layoutType : LayoutType
  maxNodes : ℕ
  searchTerm : String
deriving DecidableEq

/-- Characters after the last slash of the input, computed by a left scan
that restarts the accumulator at every slash. -/
def lastSegAux : List Char → List Char → List Char
  | [], cur => cur
  | c :: cs, cur => if c = '/' then lastSegAux cs [] else lastSegAux cs (cur ++ [c])

/-- The JavaScript idiom s.split sep .pop() OR s: the segment after the last
separator occurrence when it is nonempty, otherwise the whole string.
Used for node labels (line 107) and edge labels (line 140) of the source. -/
def lastSeg (s : String) : String :=
  let tail := lastSegAux s.data []
  if tail.isEmpty then s else String.mk tail

/-- Object node display label (line 122 of the source): the object string,
truncated to its first 20 characters plus an ellipsis when longer than 20. -/
def objLabel (s : String) : String :=
  if s.length > 20 then String.mk (s.data.take 20) ++ "..." else s

/-- Key of the object node created for a given fact (line 118 of the source):
the object string, an underscore, and the decimal fact index. -/
def objectId (t : Triplet) (i : ℕ) : String :=
  t.object ++ "_" ++ toString i

/-- Subject node created at fact index i (lines 105 to 114 of the source).
The parameter rnd abstracts Math.random; each coordinate consumes one draw. -/
def mkSubjectNode (rnd : ℕ → ℚ) (t : Triplet) (i : ℕ) : Node :=
  { id := t.subject
    label := lastSeg t.subject
    type := NodeType.subject
    x := rnd (4 * i) * 400
    y := rnd (4 * i + 1) * 400
    connections := 0
    visible := true
    clusterId := some t.predicate }

/-- Object node created at fact index i (lines 120 to 129 of the source). -/
def mkObjectNode (rnd : ℕ → ℚ) (t : Triplet) (i : ℕ) : Node :=
  { id := objectId t i
    label := objLabel t.object
    type := NodeType.object
    x := rnd (4 * i + 2) * 400
    y := rnd (4 * i + 3) * 400
    connections := 0
    visible := true
    clusterId := some t.predicate }

/-- Edge created for the fact at index i (lines 137 to 144 of the source). -/
def mkEdge (t : Triplet) (i : ℕ) : Edge :=
  { source := t.subject
    target := objectId t i
    label := lastSeg t.predicate
    predicate := t.predicate
    visible := true
    weight := 1 }

/-- Update the first list element satisfying p, leaving the rest unchanged.
This models mutation of the unique Map entry or of the object returned by
Array.prototype.find. -/
def updateFirst (p : α → Bool) (f : α → α) : List α → List α
  | [] => []
  | a :: as => if p a then f a :: as else a :: updateFirst p f as

/-- Increment the connections counter of the node stored under the given key
(lines 133 and 134 of the source). -/
def bump (ns : List Node) (key : String) : List Node :=
  updateFirst (fun n => n.id == key) (fun n => { n with connections := n.connections + 1 }) ns

/-- Insertion-ordered set insert, modelling Set.prototype.add. -/
def addPred (ps : List String) (p : String) : List String :=
  if p ∈ ps then ps else ps ++ [p]

/-- Accumulated state of the graph build effect. -/
structure BuildState where
  nodes : List Node
  edges : List Edge
  preds : List String
deriving DecidableEq

/-- One iteration of the build loop (lines 100 to 145 of the source): record
the predicate, ensure a subject node, ensure an object node keyed by
object value and fact index, increment both connection counters, append
one edge. -/
def buildStep (rnd : ℕ → ℚ) (st : BuildState) (t : Triplet) (i : ℕ) : BuildState :=
  let ns1 := if st.nodes.any (fun n => n.id == t.subject) then st.nodes
             else st.nodes ++ [mkSubjectNode rnd t i]
  let ns2 := if ns1.any (fun n => n.id == objectId t i) then ns1
             else ns1 ++ [mkObjectNode rnd t i]
  let ns3 := bump ns2 t.subject
  let ns4 := bump ns3 (objectId t i)
  { nodes := ns4
    edges := st.edges ++ [mkEdge t i]
    preds := addPred st.preds t.predicate }

/-- Build loop over the fact list, carrying the running fact index. -/
def buildAux (rnd : ℕ → ℚ) : List Triplet → ℕ → BuildState → BuildState
  | [], _, st => st
  | t :: ts, i, st => buildAux rnd ts (i + 1) (buildStep rnd st t i)

/-- Graph Builder (lines 96 to 149 of the source): fold the build step over
the fact list starting from empty collections. -/
def buildGraph (rnd : ℕ → ℚ) (triplets : List Triplet) : BuildState :=
  buildAux rnd triplets 0 ⟨[], [], []⟩

/-- The graph build effect as a state transformer (lines 93 to 156 of the
source): on an empty fact batch it returns early, leaving the previous
node and edge state in place; otherwise it rebuilds both in full. -/
def buildEffect (rnd : ℕ → ℚ) (triplets : List Triplet)
    (prev : List Node × List Edge) : List Node × List Edge :=
  if triplets.length = 0 then prev
  else ((buildGraph rnd triplets).nodes, (buildGraph rnd triplets).edges)

/-- Substring occurrence test on character lists: the pattern occurs as a
prefix of some suffix of the text. -/
def containsSub (pat : List Char) : List Char → Bool
  | [] => pat.isEmpty
  | c :: rest => pat.isPrefixOf (c :: rest) || containsSub pat rest

/-- Character-wise lower casing, modelling toLowerCase(). -/
def lowerStr (s : String) : String :=
  String.mk (s.data.map Char.toLower)

/-- Case-insensitive substring test, modelling label.toLowerCase().includes
(searchTerm.toLowerCase()) from line 168 of the source. -/
def labelMatches (label term : String) : Bool :=
  containsSub (lowerStr term).data (lowerStr label).data

/-- Node predicate of the first three filter stages (lines 160 to 171 of the
source): role filter, degree range filter, search filter. -/
def nodeKeep (f : GraphFilters) (n : Node) : Bool :=
  f.nodeTypes.contains n.type &&
    !(n.connections < f.minConnections || n.connections > f.maxConnections) &&
    !(!f.searchTerm.isEmpty && !labelMatches n.label f.searchTerm)

/-- Nodes surviving the role, degree and search filters. -/
def filteredNodes1 (f : GraphFilters) (ns : List Node) : List Node :=
  ns.filter (nodeKeep f)

/-- Edge predicate (lines 173 to 182 of the source): selected predicate and
both endpoints present among the surviving nodes. -/
def edgeKeep (f : GraphFilters) (fns : List Node) (e : Edge) : Bool :=
  f.predicates.contains e.predicate &&
    fns.any (fun n => n.id == e.source) && fns.any (fun n => n.id == e.target)

/-- Edges surviving the predicate and endpoint filters. -/
def filteredEdges1 (f : GraphFilters) (ns : List Node) (es : List Edge) : List Edge :=
  es.filter (edgeKeep f (filteredNodes1 f ns))

/-- Membership of a node id in the endpoint set of the surviving edges,
modelling the connectedNodeIds set of lines 186 to 190 of the source. -/
def isConnected (es : List Edge) (id : String) : Bool :=
  es.any (fun e => e.source == id || e.target == id)

/-- Nodes after the isolated-node stage (lines 184 to 192 of the source). -/
def filteredNodes2 (f : GraphFilters) (ns : List Node) (es : List Edge) : List Node :=
  if f.showIsolatedNodes then filteredNodes1 f ns
  else (filteredNodes1 f ns).filter (fun n => isConnected (filteredEdges1 f ns es) n.id)

/-- Stable descending sort by connection count, modelling the stable
ECMAScript sort with comparator b.connections - a.connections (line 197). -/
def sortByConnectionsDesc (ns : List Node) : List Node :=
  ns.mergeSort (fun a b => b.connections ≤ a.connections)

/-- Node cap stage (lines 194 to 203 of the source): when the survivors
exceed maxNodes, keep the top maxNodes after the stable descending sort and
re-filter the edges to surviving endpoints. -/
def capStage (f : GraphFilters) (ns : List Node) (es : List Edge) :
    List Node × List Edge :=
  if ns.length > f.maxNodes then
    let kept := (sortByConnectionsDesc ns).take f.maxNodes
    (kept, es.filter (fun e =>
      kept.any (fun n => n.id == e.source) && kept.any (fun n => n.id == e.target)))
  else (ns, es)

/-- Filter pipeline (lines 159 to 203 of the source), before layout. -/
def filterPipeline (ns : List Node) (es : List Edge) (f : GraphFilters) :
    List Node × List Edge :=
  capStage f (filteredNodes2 f ns es) (filteredEdges1 f ns es)

/-- Ceiling of the square root, modelling Math.ceil(Math.sqrt n) on a
natural number (line 228 of the source). -/
def ceilSqrt (n : ℕ) : ℕ :=
  if Nat.sqrt n * Nat.sqrt n = n then Nat.sqrt n else Nat.sqrt n + 1

/-- Map a function of the element index and the element over a list,
starting from a given index; this models forEach((node, index) => ...). -/
def mapIdxAux (f : ℕ → α → β) : ℕ → List α → List β
  | _, [] => []
  | i, a :: as => f i a :: mapIdxAux f (i + 1) as

/-- Position update for the circular layout (lines 219 to 225 of the
source): the node at index i of N nodes is placed on the circle of radius
150 around (200, 200) at angle 2 pi i / N. -/
def circularPos (cosf sinf : ℚ → ℚ) (piq : ℚ) (len : ℕ) (i : ℕ) (n : Node) : Node :=
  let angle : ℚ := (2 * piq * i) / len
  { n with x := 200 + 150 * cosf angle, y := 200 + 150 * sinf angle }

/-- Position update for the grid layout (lines 227 to 233 of the source). -/
def gridPos (cols : ℕ) (i : ℕ) (n : Node) : Node :=
  { n with x := ((i % cols) * 80 + 50 : ℕ), y := ((i / cols) * 80 + 50 : ℕ) }

/-- Position update for one hierarchical band (lines 235 to 249 of the
source): gi is the rank of the node inside its role group. -/
def hierPos (gi : ℕ) (n : Node) : Node :=
  if n.type == NodeType.subject then
    { n with x := ((gi * 100) % 400 + 50 : ℕ), y := 100 }
  else
    { n with x := ((gi * 100) % 400 + 50 : ℕ), y := 300 }

/-- Layout application (lines 213 to 256 of the source). The parameters
cosf, sinf and piq abstract Math.cos, Math.sin and Math.PI. The force case
keeps the current positions. -/
def applyLayout (cosf sinf : ℚ → ℚ) (piq : ℚ) (lt : LayoutType)
    (nodes : List Node) : List Node :=
  match lt with
  | LayoutType.circular =>
      mapIdxAux (circularPos cosf sinf piq nodes.length) 0 nodes
  | LayoutType.grid =>
      mapIdxAux (gridPos (ceilSqrt nodes.length)) 0 nodes
  | LayoutType.hierarchical =>
      mapIdxAux (fun i n =>
        hierPos ((nodes.take i).countP (fun m => m.type == n.type)) n) 0 nodes
  | LayoutType.force => nodes

/-- Filter effect (lines 159 to 210 of the source): run the filter pipeline,
then apply the selected layout to the surviving nodes. -/
def filterEffect (cosf sinf : ℚ → ℚ) (piq : ℚ) (ns : List Node)
    (es : List Edge) (f : GraphFilters) : List Node × List Edge :=
  let fe := filterPipeline ns es f
  (applyLayout cosf sinf piq f.layoutType fe.1, fe.2)

/-- Value of an optional velocity component, modelling v OR 0 on a
JavaScript number that is either undefined or a number. -/
def orZero (o : Option ℚ) : ℚ :=
  o.getD 0

/-- Repulsion contribution of one other node (lines 276 to 288 of the
source): skipped for the node itself and outside the guarded distance
range (0, 100). The parameter sqrtf abstracts Math.sqrt. -/
def repulse (sqrtf : ℚ → ℚ) (n other : Node) (v : ℚ × ℚ) : ℚ × ℚ :=
  if n.id == other.id then v
  else
    let dx := n.x - other.x
    let dy := n.y - other.y
    let distance := sqrtf (dx * dx + dy * dy)
    if distance < 100 ∧ distance > 0 then
      let force := 50 / (distance * distance)
      (v.1 + dx / distance * force, v.2 + dy / distance * force)
    else v

/-- First phase of a force tick (lines 266 to 289 of the source): friction,
centering spring, pairwise repulsion; only velocities change. -/
def forcePhase1 (sqrtf : ℚ → ℚ) (ns : List Node) : List Node :=
  ns.map (fun n =>
    let vx0 := orZero n.vx * 0.9
    let vy0 := orZero n.vy * 0.9
    let vx1 := vx0 + (200 - n.x) * 0.01
    let vy1 := vy0 + (200 - n.y) * 0.01
    let v := ns.foldl (fun v other => repulse sqrtf n other v) (vx1, vy1)
    { n with vx := some v.1, vy := some v.2 })

/-- Attraction along one edge (lines 292 to 312 of the source): when both
endpoints are found and their distance is positive, pull them together. -/
def edgeAttract (sqrtf : ℚ → ℚ) (ns : List Node) (e : Edge) : List Node :=
  match ns.find? (fun n => n.id == e.source), ns.find? (fun n => n.id == e.target) with
  | some s, some t =>
      let dx := t.x - s.x
      let dy := t.y - s.y
      let distance := sqrtf (dx * dx + dy * dy)
      if distance > 0 then
        let fx := dx / distance * 0.02
        let fy := dy / distance * 0.02
        let ns1 := updateFirst (fun n => n.id == e.source)
          (fun n => { n with vx := some (orZero n.vx + fx), vy := some (orZero n.vy + fy) }) ns
        updateFirst (fun n => n.id == e.target)
          (fun n => { n with vx := some (orZero n.vx - fx), vy := some (orZero n.vy - fy) }) ns1
      else ns
  | _, _ => ns

/-- Integration phase (lines 315 to 322 of the source): add the velocity to
the position and clamp the position to the canvas bounds. -/
def forcePhase3 (ns : List Node) : List Node :=
  ns.map (fun n =>
    let nx := n.x + orZero n.vx
    let ny := n.y + orZero n.vy
    { n with x := max 20 (min 380 nx), y := max 20 (min 380 ny) })

/-- One tick of the force simulation body (lines 262 to 322 of the source):
velocity phase, edge attraction phase, integration with clamping. -/
def runForceTick (sqrtf : ℚ → ℚ) (ns : List Node) (es : List Edge) : List Node :=
  forcePhase3 (es.foldl (edgeAttract sqrtf) (forcePhase1 sqrtf ns))

/-- Zoom-in step (line 453 of the source). -/
def zoomIn (s : ℚ) : ℚ :=
  min (s * 1.2) 3

/-- Zoom-out step (line 454 of the source). -/
def zoomOut (s : ℚ) : ℚ :=
  max (s / 1.2) 0.3

/-- URI shortening helper of the source (lines 476 to 482): the final path
segment for strings that start with an http or https scheme, the whole
string otherwise. The specification uses this notion of a URI-shaped
string for display labels. -/
def shortenUri (uri : String) : String :=
  if ("http://".data).isPrefixOf uri.data || ("https://".data).isPrefixOf uri.data then
    let tail := lastSegAux uri.data []
    if tail.isEmpty then uri else String.mk tail
  else uri

/-- Comparator written from the specification words for the node cap: sort
descending by degree, ties broken by original insertion order, where the
first component carries the original index. -/
def degreeDescIdx (a b : ℕ × Node) : Bool :=
  b.2.connections < a.2.connections ||
    (a.2.connections == b.2.connections && a.1 ≤ b.1)

/-- Selection written from the specification words for the node cap: the
top m surviving nodes by degree, ties broken by original insertion order. -/
def specTopDegree (ns : List Node) (m : ℕ) : List Node :=
  (((ns.enum).mergeSort degreeDescIdx).map (fun p => p.2)).take m

/-- Edge list contributed by the facts starting at a given fact index. -/
def edgesFrom : ℕ → List Triplet → List Edge
  | _, [] => []
  | i, t :: ts => mkEdge t i :: edgesFrom (i + 1) ts

/-- Node keys touched by the build loop from a given fact index on: the
subject value and the object key of each fact, in processing order. -/
def keysFrom : ℕ → List Triplet → List String
  | _, [] => []
  | i, t :: ts => t.subject :: objectId t i :: keysFrom (i + 1) ts

/-- Object node keys contributed by the facts from a given fact index on. -/
def oidsFrom : ℕ → List Triplet → List String
  | _, [] => []
  | i, t :: ts => objectId t i :: oidsFrom (i + 1) ts

/-- Insert-if-absent on the key list, the id-level shadow of the node map. -/
def insKey (acc : List String) (k : String) : List String :=
  if k ∈ acc then acc else acc ++ [k]

/-- Constant pseudo-random stream used for concrete evaluations. -/
def rnd0 : ℕ → ℚ := fun _ => 0

/-- Constant stand-in for Math.cos in concrete evaluations. -/
def rq1 : ℚ → ℚ := fun _ => 1

/-- Constant stand-in for Math.sin and Math.sqrt in concrete evaluations. -/
def rq0 : ℚ → ℚ := fun _ => 0

/-- Sample facts, the scenario of the specification test section. -/
def fact1 : Triplet := ⟨"A", "p1", "x", none⟩

/-- Second sample fact. -/
def fact2 : Triplet := ⟨"A", "p2", "y", none⟩

/-- Third sample fact. -/
def fact3 : Triplet := ⟨"B", "p1", "x", none⟩

/-- Sample fact batch. -/
def sampleFacts : List Triplet := [fact1, fact2, fact3]

/-- Default node used with List.getD. -/
def defNode : Node := ⟨"", "", NodeType.subject, 0, 0, none, none, 0, true, none⟩

/-- Default edge used with List.getD. -/
def defEdge : Edge := ⟨"", "", "", "", true, 1⟩

/-- Filter state matching the initial state of the component, with both
sample predicates selected. -/
def baseFilters : GraphFilters :=
  ⟨["p1", "p2"], [NodeType.subject, NodeType.object], 0, 100, true, true, false,
    LayoutType.force, 50, ""⟩

/-- C5. When the input fact batch is the empty list, the build effect
returns early and leaves the previous node and edge state unchanged; a
previously built graph is retained rather than cleared, and the state is
empty only when it was already empty. -/
theorem buildEffect_empty_keeps_state (rnd : ℕ → ℚ) (prev : List Node × List Edge) :
    buildEffect rnd [] prev = prev := by
  simp [buildEffect]

/-- C5 counterexample. The claim that changing the batch to an empty list
leaves the node and edge sets empty fails when a graph was built before:
the effect keeps the previous nonempty state. -/
theorem buildEffect_empty_cex :
    buildEffect rnd0 [] ([defNode], [defEdge]) ≠ ([], []) := by
  simp [buildEffect]

/-- C7. One tick of the force simulation leaves every node position inside
the canvas bounds [20, 380] on both axes (hence finite), for every
abstracted square root function, node list and edge list: the final
clamping step dominates all force terms, and the zero-distance guards are
part of the embedded force computation. -/
theorem force_tick_in_bounds (sqrtf : ℚ → ℚ) (ns : List Node) (es : List Edge) :
    ∀ n ∈ runForceTick sqrtf ns es, 20 ≤ n.x ∧ n.x ≤ 380 ∧ 20 ≤ n.y ∧ n.y ≤ 380 := by
  intro n hn
  rw [runForceTick, forcePhase3] at hn
  obtain ⟨m, -, rfl⟩ := List.mem_map.1 hn
  refine ⟨le_max_left _ _, max_le (by norm_num) (min_le_left _ _),
    le_max_left _ _, max_le (by norm_num) (min_le_left _ _)⟩

/-- Input node for the force tick witness. -/
def tickNodeIn : Node :=
  { id := "A", label := "A", type := NodeType.subject, x := 0, y := 0,
    connections := 0, visible := true }

/-- Output node of the force tick witness: the centering spring gives
velocity 2, and the position 2 is clamped up to the bound 20. -/
def tickNodeOut : Node :=
  { id := "A", label := "A", type := NodeType.subject, x := 20, y := 20,
    vx := some 2, vy := some 2, connections := 0, visible := true }

/-- C7 witness at a concrete input. -/
theorem force_tick_in_bounds_witness :
    tickNodeOut ∈ runForceTick rq0 [tickNodeIn] [] ∧
      (20 ≤ tickNodeOut.x ∧ tickNodeOut.x ≤ 380 ∧
        20 ≤ tickNodeOut.y ∧ tickNodeOut.y ≤ 380) :=
  have hmem : tickNodeOut ∈ runForceTick rq0 [tickNodeIn] [] := by
    have h : runForceTick rq0 [tickNodeIn] [] = [tickNodeOut] := by
      simp [runForceTick, forcePhase1, forcePhase3, edgeAttract, repulse, orZero, rq0,
        tickNodeIn, tickNodeOut]
      norm_num [min_def, max_def]
    rw [h]; exact List.mem_singleton.2 rfl
  ⟨hmem, force_tick_in_bounds rq0 [tickNodeIn] [] tickNodeOut hmem⟩

/-- C8 counterexample. Starting inside the clamp bounds at scale 2.9, one
zoom-in step saturates at the upper bound 3 and the following zoom-out
step lands at 2.5, not 2.9: the round trip is off by 0.4, far outside any
floating-point tolerance. -/
theorem zoom_roundtrip_cex :
    zoomOut (zoomIn (2.9 : ℚ)) = 2.5 ∧ (2.5 : ℚ) ≠ 2.9 ∧
      (0.3 : ℚ) ≤ 2.9 ∧ (2.9 : ℚ) ≤ 3 := by
  refine ⟨?_, by norm_num, by norm_num, by norm_num⟩
  rw [zoomIn, zoomOut]
  norm_num [min_def, max_def]

/-- C8 as amended. Zoom-in then zoom-out by the same step count returns the
scale to exactly its original value provided the scale stays strictly
inside the clamp range on the way: the lower bound 0.3 on the start and
the bound s * 1.2 ^ k ≤ 3 on the peak rule out saturation. -/
theorem zoom_roundtrip (s : ℚ) (k : ℕ) (hlo : 0.3 ≤ s) (hhi : s * 1.2 ^ k ≤ 3) :
    zoomOut^[k] (zoomIn^[k] s) = s := by
  induction k generalizing s with
  | zero => simp
  | succ k ih =>
    have hs0 : (0 : ℚ) < s := lt_of_lt_of_le (by norm_num) hlo
    have hpow : (1 : ℚ) ≤ 1.2 ^ k := one_le_pow₀ (by norm_num)
    have h12 : s * 1.2 ≤ 3 := by
      have h1 : (1.2 : ℚ) ≤ 1.2 ^ (k + 1) := by
        have : (1.2 : ℚ) ^ (k + 1) = 1.2 * 1.2 ^ k := by ring
        nlinarith
      have h2 : s * 1.2 ≤ s * 1.2 ^ (k + 1) := by nlinarith
      exact le_trans h2 hhi
    have hIn : zoomIn s = s * 1.2 := by rw [zoomIn]; exact min_eq_left h12
    have hlo2 : (0.3 : ℚ) ≤ s * 1.2 := by nlinarith
    have hhi2 : s * 1.2 * 1.2 ^ k ≤ 3 := by
      have : s * 1.2 * 1.2 ^ k = s * 1.2 ^ (k + 1) := by ring
      rw [this]; exact hhi
    have e1 : zoomIn^[k + 1] s = zoomIn^[k] (zoomIn s) := Function.iterate_succ_apply zoomIn k s
    have e2 : zoomOut^[k + 1] (zoomIn^[k] (zoomIn s)) =
        zoomOut (zoomOut^[k] (zoomIn^[k] (zoomIn s))) := Function.iterate_succ_apply' zoomOut k _
    rw [e1, e2, hIn, ih (s * 1.2) hlo2 hhi2, zoomOut]
    have hdiv : s * 1.2 / 1.2 = s := by ring
    rw [hdiv]
    exact max_eq_left hlo

/-- C8 witness: two zoom steps from scale 1 round-trip exactly. -/
theorem zoom_roundtrip_witness :
    (0.3 : ℚ) ≤ 1 ∧ (1 : ℚ) * 1.2 ^ 2 ≤ 3 ∧ zoomOut^[2] (zoomIn^[2] (1 : ℚ)) = 1 :=
  ⟨by norm_num, by norm_num, zoom_roundtrip 1 2 (by norm_num) (by norm_num)⟩

theorem length_mapIdxAux (f : ℕ → α → β) : ∀ (l : List α) (i : ℕ),
    (mapIdxAux f i l).length = l.length
  | [], _ => rfl
  | _ :: as, i => by simp [mapIdxAux, length_mapIdxAux f as (i + 1)]

theorem getD_mapIdxAux (f : ℕ → α → α) : ∀ (l : List α) (i j : ℕ) (d d0 : α),
    j < l.length → (mapIdxAux f i l).getD j d = f (i + j) (l.getD j d0)
  | [], _, j, _, _, h => by simp at h
  | a :: as, i, 0, d, d0, _ => by simp [mapIdxAux]
  | a :: as, i, j + 1, d, d0, h => by
    have hj : j < as.length := by simpa using h
    simp only [mapIdxAux, List.getD_cons_succ]
    rw [getD_mapIdxAux f as (i + 1) j d d0 hj]
    ring_nf

theorem mapIdxAux_mapIdxAux (f g : ℕ → α → α) : ∀ (l : List α) (i : ℕ),
    mapIdxAux g i (mapIdxAux f i l) = mapIdxAux (fun j a => g j (f j a)) i l
  | [], _ => rfl
  | a :: as, i => by simp [mapIdxAux, mapIdxAux_mapIdxAux f g as (i + 1)]

theorem mapIdxAux_congr (f g : ℕ → α → β) (h : ∀ j a, f j a = g j a) :
    ∀ (l : List α) (i : ℕ), mapIdxAux f i l = mapIdxAux g i l
  | [], _ => rfl
  | a :: as, i => by simp [mapIdxAux, h i a, mapIdxAux_congr f g h as (i + 1)]

theorem take_mapIdxAux (f : ℕ → α → β) : ∀ (l : List α) (i j : ℕ),
    (mapIdxAux f i l).take j = mapIdxAux f i (l.take j)
  | [], _, _ => by simp [mapIdxAux]
  | a :: as, i, 0 => rfl
  | a :: as, i, j + 1 => by
    simp [mapIdxAux, take_mapIdxAux f as (i + 1) j]

theorem countP_mapIdxAux (f : ℕ → Node → Node) (p : Node → Bool)
    (hf : ∀ j a, p (f j a) = p a) : ∀ (l : List Node) (i : ℕ),
    (mapIdxAux f i l).countP p = l.countP p
  | [], _ => rfl
  | a :: as, i => by
    simp [mapIdxAux, List.countP_cons, hf i a, countP_mapIdxAux f p hf as (i + 1)]

theorem hierPos_type (gi : ℕ) (n : Node) : (hierPos gi n).type = n.type := by
  unfold hierPos; split <;> rfl

theorem circularPos_idem (cosf sinf : ℚ → ℚ) (piq : ℚ) (len j : ℕ) (n : Node) :
    circularPos cosf sinf piq len j (circularPos cosf sinf piq len j n) =
      circularPos cosf sinf piq len j n := by
  cases n; rfl

theorem gridPos_idem (cols j : ℕ) (n : Node) :
    gridPos cols j (gridPos cols j n) = gridPos cols j n := by
  cases n; rfl

theorem hierPos_idem (gi : ℕ) (n : Node) :
    hierPos gi (hierPos gi n) = hierPos gi n := by
  unfold hierPos
  cases n with
  | mk id label type x y vx vy connections visible clusterId =>
    cases type <;> simp [NodeType.subject]

/-- C6. The circular, grid and hierarchical layouts are pure functions of
the ordered visible node list and are idempotent: applying the same layout
twice yields the same positions as applying it once. Moreover the circular
layout places the node of index i among N nodes at angle 2 pi i / N on the
circle of radius 150 around the center (200, 200). -/
theorem layout_idempotent_and_circular_formula (cosf sinf : ℚ → ℚ) (piq : ℚ)
    (lt : LayoutType) (ns : List Node) (hlt : lt ≠ LayoutType.force) :
    applyLayout cosf sinf piq lt (applyLayout cosf sinf piq lt ns) =
        applyLayout cosf sinf piq lt ns ∧
      ∀ (i : ℕ) (d : Node), i < ns.length →
        ((applyLayout cosf sinf piq LayoutType.circular ns).getD i d).x =
            200 + 150 * cosf (2 * piq * (i : ℚ) / (ns.length : ℚ)) ∧
          ((applyLayout cosf sinf piq LayoutType.circular ns).getD i d).y =
            200 + 150 * sinf (2 * piq * (i : ℚ) / (ns.length : ℚ)) := by
  constructor
  · cases lt with
    | force => exact absurd rfl hlt
    | circular =>
      simp only [applyLayout]
      rw [length_mapIdxAux, mapIdxAux_mapIdxAux]
      exact mapIdxAux_congr _ _ (fun j a => circularPos_idem cosf sinf piq ns.length j a) ns 0
    | grid =>
      simp only [applyLayout]
      rw [length_mapIdxAux, mapIdxAux_mapIdxAux]
      exact mapIdxAux_congr _ _ (fun j a => gridPos_idem (ceilSqrt ns.length) j a) ns 0
    | hierarchical =>
      simp only [applyLayout]
      rw [mapIdxAux_mapIdxAux]
      refine mapIdxAux_congr _ _ (fun j a => ?_) ns 0
      rw [hierPos_type, take_mapIdxAux,
        countP_mapIdxAux _ _ (fun i n => by rw [hierPos_type]) (ns.take j) 0]
      exact hierPos_idem _ _
  · intro i d hi
    simp only [applyLayout]
    rw [getD_mapIdxAux _ ns 0 i d d hi]
    simp [circularPos]

/-- C6 witness: the circular layout on a one-node list, with constant
stand-ins for cosine and sine. -/
theorem layout_idempotent_witness :
    LayoutType.circular ≠ LayoutType.force ∧ 0 < ([defNode] : List Node).length ∧
      applyLayout rq1 rq0 3 LayoutType.circular
          (applyLayout rq1 rq0 3 LayoutType.circular [defNode]) =
        applyLayout rq1 rq0 3 LayoutType.circular [defNode] ∧
      ((applyLayout rq1 rq0 3 LayoutType.circular [defNode]).getD 0 defNode).x =
        200 + 150 * rq1 (2 * 3 * ((0 : ℕ) : ℚ) / (([defNode] : List Node).length : ℚ)) :=
  have h := layout_idempotent_and_circular_formula rq1 rq0 3 LayoutType.circular [defNode]
    (by decide)
  ⟨by decide, by decide, h.1, (h.2 0 defNode (by decide)).1⟩

theorem map_mapIdxAux (f : ℕ → α → α) (g : α → β) (h : ∀ j a, g (f j a) = g a) :
    ∀ (l : List α) (i : ℕ), (mapIdxAux f i l).map g = l.map g
  | [], _ => rfl
  | a :: as, i => by simp [mapIdxAux, h i a, map_mapIdxAux f g h as (i + 1)]

theorem circularPos_id (cosf sinf : ℚ → ℚ) (piq : ℚ) (len j : ℕ) (n : Node) :
    (circularPos cosf sinf piq len j n).id = n.id := rfl

theorem gridPos_id (cols j : ℕ) (n : Node) : (gridPos cols j n).id = n.id := rfl

theorem hierPos_id (gi : ℕ) (n : Node) : (hierPos gi n).id = n.id := by
  unfold hierPos; split <;> rfl

theorem applyLayout_map_id (cosf sinf : ℚ → ℚ) (piq : ℚ) (lt : LayoutType)
    (ns : List Node) :
    (applyLayout cosf sinf piq lt ns).map (fun n => n.id) = ns.map (fun n => n.id) := by
  cases lt with
  | force => rfl
  | circular =>
    simp only [applyLayout]
    exact map_mapIdxAux (circularPos cosf sinf piq ns.length) (fun n => n.id)
      (fun j a => circularPos_id cosf sinf piq ns.length j a) ns 0
  | grid =>
    simp only [applyLayout]
    exact map_mapIdxAux (gridPos (ceilSqrt ns.length)) (fun n => n.id)
      (fun j a => gridPos_id (ceilSqrt ns.length) j a) ns 0
  | hierarchical =>
    simp only [applyLayout]
    exact map_mapIdxAux _ (fun n => n.id) (fun j a => hierPos_id _ a) ns 0

theorem applyLayout_length (cosf sinf : ℚ → ℚ) (piq : ℚ) (lt : LayoutType)
    (ns : List Node) : (applyLayout cosf sinf piq lt ns).length = ns.length := by
  have h := congrArg List.length (applyLayout_map_id cosf sinf piq lt ns)
  simpa using h

theorem exists_id_iff_mem_map (l : List Node) (k : String) :
    (∃ n ∈ l, n.id = k) ↔ k ∈ l.map (fun n => n.id) := by
  constructor
  · rintro ⟨n, hn, rfl⟩; exact List.mem_map.2 ⟨n, hn, rfl⟩
  · intro h
    obtain ⟨n, hn, hkn⟩ := List.mem_map.1 h
    exact ⟨n, hn, hkn⟩

theorem any_id_eq_true_iff (l : List Node) (k : String) :
    (l.any (fun n => n.id == k) = true) ↔ ∃ n ∈ l, n.id = k := by
  simp [List.any_eq_true]

theorem mem_filteredEdges1_endpoints (f : GraphFilters) (ns : List Node)
    (es : List Edge) (e : Edge) (he : e ∈ filteredEdges1 f ns es) :
    (∃ n ∈ filteredNodes1 f ns, n.id = e.source) ∧
      ∃ n ∈ filteredNodes1 f ns, n.id = e.target := by
  have hk := (List.mem_filter.1 he).2
  rw [edgeKeep, Bool.and_eq_true, Bool.and_eq_true] at hk
  exact ⟨(any_id_eq_true_iff _ _).1 hk.1.2, (any_id_eq_true_iff _ _).1 hk.2⟩

theorem mem_filteredNodes2_of_endpoint (f : GraphFilters) (ns : List Node)
    (es : List Edge) (e : Edge) (he : e ∈ filteredEdges1 f ns es) (n : Node)
    (hn : n ∈ filteredNodes1 f ns) (hid : n.id = e.source ∨ n.id = e.target) :
    n ∈ filteredNodes2 f ns es := by
  rw [filteredNodes2]
  by_cases hs : f.showIsolatedNodes
  · simp [hs, hn]
  · simp only [hs, if_false]
    refine List.mem_filter.2 ⟨hn, ?_⟩
    rw [isConnected, List.any_eq_true]
    refine ⟨e, he, ?_⟩
    rcases hid with h | h <;> simp [h]

theorem pipeline_no_dangling (f : GraphFilters) (ns : List Node) (es : List Edge)
    (e : Edge) (he : e ∈ (filterPipeline ns es f).2) :
    (∃ n ∈ (filterPipeline ns es f).1, n.id = e.source) ∧
      ∃ n ∈ (filterPipeline ns es f).1, n.id = e.target := by
  rw [filterPipeline, capStage] at he ⊢
  by_cases hcap : (filteredNodes2 f ns es).length > f.maxNodes
  · simp only [hcap, if_pos] at he ⊢
    have hk := (List.mem_filter.1 he).2
    rw [Bool.and_eq_true] at hk
    exact ⟨(any_id_eq_true_iff _ _).1 hk.1, (any_id_eq_true_iff _ _).1 hk.2⟩
  · simp only [hcap, if_neg, if_false] at he ⊢
    have h1 := mem_filteredEdges1_endpoints f ns es e he
    obtain ⟨⟨n1, hn1, hid1⟩, ⟨n2, hn2, hid2⟩⟩ := h1
    exact ⟨⟨n1, mem_filteredNodes2_of_endpoint f ns es e he n1 hn1 (Or.inl hid1), hid1⟩,
      ⟨n2, mem_filteredNodes2_of_endpoint f ns es e he n2 hn2 (Or.inr hid2), hid2⟩⟩

/-- C2. Every edge produced by the filter effect has both endpoints present
in the produced node set, for every input graph and every combination of
role, degree, search, predicate, isolated-node and node-cap criteria. -/
theorem filter_no_dangling (cosf sinf : ℚ → ℚ) (piq : ℚ) (ns : List Node)
    (es : List Edge) (f : GraphFilters) (e : Edge)
    (he : e ∈ (filterEffect cosf sinf piq ns es f).2) :
    (∃ n ∈ (filterEffect cosf sinf piq ns es f).1, n.id = e.source) ∧
      ∃ n ∈ (filterEffect cosf sinf piq ns es f).1, n.id = e.target := by
  rw [filterEffect] at he ⊢
  have h := pipeline_no_dangling f ns es e he
  have hmap := applyLayout_map_id cosf sinf piq f.layoutType (filterPipeline ns es f).1
  constructor
  · exact (exists_id_iff_mem_map _ _).2 (hmap ▸ (exists_id_iff_mem_map _ _).1 h.1)
  · exact (exists_id_iff_mem_map _ _).2 (hmap ▸ (exists_id_iff_mem_map _ _).1 h.2)

/-- Hand-written graph state mirroring the sample batch with literal
positions, used for filter-engine witnesses. -/
def wNodeA : Node := ⟨"A", "A", NodeType.subject, 0, 0, none, none, 2, true, some "p1"⟩

/-- Object node of the first sample fact, literal positions. -/
def wNodeX : Node := ⟨"x_0", "x", NodeType.object, 0, 0, none, none, 1, true, some "p1"⟩

/-- Object node of the second sample fact, literal positions. -/
def wNodeY : Node := ⟨"y_1", "y", NodeType.object, 0, 0, none, none, 1, true, some "p2"⟩

/-- Second subject node, literal positions. -/
def wNodeB : Node := ⟨"B", "B", NodeType.subject, 0, 0, none, none, 1, true, some "p1"⟩

/-- Object node of the third sample fact, literal positions. -/
def wNodeX2 : Node := ⟨"x_2", "x", NodeType.object, 0, 0, none, none, 1, true, some "p1"⟩

/-- Node list of the hand-written sample graph. -/
def wNodes : List Node := [wNodeA, wNodeX, wNodeY, wNodeB, wNodeX2]

/-- Edges of the hand-written sample graph. -/
def wEdges : List Edge :=
  [⟨"A", "x_0", "p1", "p1", true, 1⟩, ⟨"A", "y_1", "p2", "p2", true, 1⟩,
    ⟨"B", "x_2", "p1", "p1", true, 1⟩]

/-- C2 witness: the first sample edge survives the base criteria and both
of its endpoints are in the visible node set. -/
theorem filter_no_dangling_witness :
    wEdges.getD 0 defEdge ∈ (filterEffect rq1 rq0 3 wNodes wEdges baseFilters).2 ∧
      ((∃ n ∈ (filterEffect rq1 rq0 3 wNodes wEdges baseFilters).1,
          n.id = (wEdges.getD 0 defEdge).source) ∧
        ∃ n ∈ (filterEffect rq1 rq0 3 wNodes wEdges baseFilters).1,
          n.id = (wEdges.getD 0 defEdge).target) :=
  ⟨by decide, filter_no_dangling rq1 rq0 3 wNodes wEdges baseFilters _ (by decide)⟩

/-- Base criteria with the circular layout selected. -/
def circFilters : GraphFilters := { baseFilters with layoutType := LayoutType.circular }

/-- C3 counterexample. With the circular layout selected, the filter effect
writes new positions into the very node objects it was given, so the
returned visible node is not the unchanged input node: the claim that
filtering never mutates any field of the input nodes fails. The cosine
stand-in is the constant 1, so the single visible node moves to x = 350. -/
theorem filter_mutates_cex :
    ¬ (∀ n ∈ (filterEffect rq1 rq0 3 [defNode] [] circFilters).1, n ∈ [defNode]) := by
  intro h
  have hout : (filterEffect rq1 rq0 3 [defNode] [] circFilters).1 =
      [{ defNode with x := 350, y := 200 }] := by
    simp only [filterEffect, filterPipeline, capStage, filteredNodes2, filteredNodes1,
      filteredEdges1, nodeKeep, labelMatches, isConnected, circFilters, baseFilters,
      defNode, applyLayout, mapIdxAux, circularPos, rq1, rq0]
    norm_num
  have hmem := h ({ defNode with x := 350, y := 200 })
    (by rw [hout]; exact List.mem_singleton.2 rfl)
  have heq := List.mem_singleton.1 hmem
  have hx := congrArg Node.x heq
  simp only [defNode] at hx
  norm_num at hx

theorem mem_of_mem_pipeline_nodes (f : GraphFilters) (ns : List Node) (es : List Edge)
    (n : Node) (hn : n ∈ (filterPipeline ns es f).1) : n ∈ ns := by
  rw [filterPipeline, capStage] at hn
  have base : ∀ m : Node, m ∈ filteredNodes2 f ns es → m ∈ ns := by
    intro m hm
    rw [filteredNodes2] at hm
    by_cases hs : f.showIsolatedNodes
    · simp only [hs, if_pos] at hm
      exact (List.mem_filter.1 hm).1
    · simp only [hs, if_neg, if_false] at hm
      exact (List.mem_filter.1 (List.mem_filter.1 hm).1).1
  by_cases hcap : (filteredNodes2 f ns es).length > f.maxNodes
  · simp only [hcap, if_pos] at hn
    have h1 : n ∈ sortByConnectionsDesc (filteredNodes2 f ns es) := List.mem_of_mem_take hn
    rw [sortByConnectionsDesc] at h1
    exact base n (List.mem_mergeSort.1 h1)
  · simp only [hcap, if_neg, if_false] at hn
    exact base n hn

/-- C3 as amended. The filter effect never removes information from the
edge objects: every output edge is one of the input edges, unchanged in
every field, for any criteria. The same holds for nodes exactly when the
force layout is selected; under the circular, grid and hierarchical
layouts the effect overwrites the positions of the surviving nodes in
place and no other field of any node or edge. -/
theorem filter_no_mutation_force (cosf sinf : ℚ → ℚ) (piq : ℚ) (ns : List Node)
    (es : List Edge) (f : GraphFilters) :
    (∀ e ∈ (filterEffect cosf sinf piq ns es f).2, e ∈ es) ∧
      (f.layoutType = LayoutType.force →
        ∀ n ∈ (filterEffect cosf sinf piq ns es f).1, n ∈ ns) := by
  constructor
  · intro e he
    rw [filterEffect, filterPipeline, capStage] at he
    by_cases hcap : (filteredNodes2 f ns es).length > f.maxNodes
    · simp only [hcap, if_pos] at he
      exact (List.mem_filter.1 (List.mem_filter.1 he).1).1
    · simp only [hcap, if_neg, if_false] at he
      exact (List.mem_filter.1 he).1
  · intro hf n hn
    rw [filterEffect, hf] at hn
    exact mem_of_mem_pipeline_nodes f ns es n hn

/-- C3 witness: with the force layout the first visible node and edge are
the unchanged input objects. -/
theorem filter_no_mutation_force_witness :
    baseFilters.layoutType = LayoutType.force ∧
      wEdges.getD 0 defEdge ∈ (filterEffect rq1 rq0 3 wNodes wEdges baseFilters).2 ∧
      wEdges.getD 0 defEdge ∈ wEdges ∧
      wNodeA ∈ (filterEffect rq1 rq0 3 wNodes wEdges baseFilters).1 ∧
      wNodeA ∈ wNodes :=
  ⟨rfl, by decide, (filter_no_mutation_force rq1 rq0 3 wNodes wEdges baseFilters).1 _
      (by decide),
    by decide, (filter_no_mutation_force rq1 rq0 3 wNodes wEdges baseFilters).2 rfl wNodeA
      (by decide)⟩

theorem degreeDescIdx_eq (a b : ℕ × Node) :
    degreeDescIdx a b =
      List.enumLE (fun x y : Node => y.connections ≤ x.connections) a b := by
  rcases Nat.lt_trichotomy a.2.connections b.2.connections with h | h | h
  · simp [degreeDescIdx, List.enumLE, Nat.lt_asymm h, Nat.not_le.2 h, Nat.ne_of_lt h]
  · simp [degreeDescIdx, List.enumLE, h]
  · simp [degreeDescIdx, List.enumLE, h, Nat.le_of_lt h, Nat.not_le.2 h]

theorem specTopDegree_eq_take_sort (ns : List Node) (m : ℕ) :
    specTopDegree ns m = (sortByConnectionsDesc ns).take m := by
  rw [specTopDegree, sortByConnectionsDesc]
  have hcmp : degreeDescIdx =
      List.enumLE (fun x y : Node => y.connections ≤ x.connections) :=
    funext fun a => funext fun b => degreeDescIdx_eq a b
  rw [hcmp, List.mergeSort_enum]

/-- C4. The visible node count never exceeds maxNodes, and when the cap
binds, the kept nodes are exactly the top maxNodes surviving nodes sorted
descending by degree with ties broken by original insertion order, after
which the edges are re-filtered to the surviving endpoints. -/
theorem filter_node_cap (cosf sinf : ℚ → ℚ) (piq : ℚ) (ns : List Node)
    (es : List Edge) (f : GraphFilters) :
    (filterEffect cosf sinf piq ns es f).1.length ≤ f.maxNodes ∧
      ((filteredNodes2 f ns es).length > f.maxNodes →
        (filterEffect cosf sinf piq ns es f).1.map (fun n => n.id) =
            (specTopDegree (filteredNodes2 f ns es) f.maxNodes).map (fun n => n.id) ∧
          (filterEffect cosf sinf piq ns es f).2 =
            (filteredEdges1 f ns es).filter (fun e =>
              ((sortByConnectionsDesc (filteredNodes2 f ns es)).take f.maxNodes).any
                  (fun n => n.id == e.source) &&
                ((sortByConnectionsDesc (filteredNodes2 f ns es)).take f.maxNodes).any
                  (fun n => n.id == e.target))) := by
  have hlen : (filterEffect cosf sinf piq ns es f).1.length =
      (filterPipeline ns es f).1.length := by
    rw [filterEffect]
    exact applyLayout_length cosf sinf piq f.layoutType _
  constructor
  · rw [hlen, filterPipeline, capStage]
    by_cases hcap : (filteredNodes2 f ns es).length > f.maxNodes
    · rw [if_pos hcap]
      dsimp only
      rw [List.length_take]
      exact min_le_left _ _
    · rw [if_neg hcap]
      dsimp only
      omega
  · intro hcap
    constructor
    · rw [filterEffect]
      dsimp only
      rw [applyLayout_map_id, filterPipeline, capStage, if_pos hcap]
      dsimp only
      rw [specTopDegree_eq_take_sort]
    · rw [filterEffect]
      dsimp only
      rw [filterPipeline, capStage, if_pos hcap]

/-- Criteria binding the node cap at two nodes. -/
def capFilters : GraphFilters := { baseFilters with maxNodes := 2 }

/-- C4 witness: with the cap at 2 on five surviving nodes, the kept nodes
are the two of highest degree in insertion order, and the edges are
re-filtered accordingly. -/
theorem filter_node_cap_witness :
    (filteredNodes2 capFilters wNodes wEdges).length > capFilters.maxNodes ∧
      (filterEffect rq1 rq0 3 wNodes wEdges capFilters).1.map (fun n => n.id) =
        (specTopDegree (filteredNodes2 capFilters wNodes wEdges)
            capFilters.maxNodes).map (fun n => n.id) :=
  ⟨by decide,
    ((filter_node_cap rq1 rq0 3 wNodes wEdges capFilters).2 (by decide)).1⟩

theorem edges_buildAux (rnd : ℕ → ℚ) : ∀ (ts : List Triplet) (i : ℕ) (st : BuildState),
    (buildAux rnd ts i st).edges = st.edges ++ edgesFrom i ts
  | [], _, st => by simp [buildAux, edgesFrom]
  | t :: ts, i, st => by
    rw [buildAux, edges_buildAux rnd ts (i + 1) (buildStep rnd st t i)]
    simp [buildStep, edgesFrom]

theorem length_edgesFrom : ∀ (ts : List Triplet) (i : ℕ),
    (edgesFrom i ts).length = ts.length
  | [], _ => rfl
  | _ :: ts, i => by simp [edgesFrom, length_edgesFrom ts (i + 1)]

theorem getD_edgesFrom : ∀ (ts : List Triplet) (i j : ℕ) (d : Edge) (dt : Triplet),
    j < ts.length → (edgesFrom i ts).getD j d = mkEdge (ts.getD j dt) (i + j)
  | [], _, j, _, _, h => by simp at h
  | t :: ts, i, 0, d, dt, _ => by simp [edgesFrom]
  | t :: ts, i, j + 1, d, dt, h => by
    have hj : j < ts.length := by simpa using h
    simp only [edgesFrom, List.getD_cons_succ]
    rw [getD_edgesFrom ts (i + 1) j d dt hj]
    ring_nf

/-- C9 counterexample. For the predicate a/b, which is not URI-shaped (the
shortening rule of the source, shortenUri, leaves it whole), the edge
label built by the Graph Builder is the final slash segment b, not the
full predicate string the claim requires for non-URI-shaped predicates. -/
theorem edge_label_cex :
    ((buildGraph rnd0 [⟨"s", "a/b", "o", none⟩]).edges.getD 0 defEdge).label = "b" ∧
      shortenUri "a/b" = "a/b" ∧
      ((buildGraph rnd0 [⟨"s", "a/b", "o", none⟩]).edges.getD 0 defEdge).label ≠
        shortenUri "a/b" := by
  decide

/-- C9 as amended. The i-th edge of the built graph keeps the i-th fact
predicate unchanged as its predicateKey, and its display label is the text
after the last slash of the predicate when that text is nonempty, and the
full predicate string otherwise, regardless of whether the predicate is
URI-shaped. -/
theorem edge_label_and_key (rnd : ℕ → ℚ) (facts : List Triplet) (i : ℕ)
    (d : Edge) (dt : Triplet) (h : i < facts.length) :
    ((buildGraph rnd facts).edges.getD i d).predicate = (facts.getD i dt).predicate ∧
      ((buildGraph rnd facts).edges.getD i d).label =
        lastSeg (facts.getD i dt).predicate := by
  rw [buildGraph, edges_buildAux]
  simp only [List.nil_append]
  rw [getD_edgesFrom facts 0 i d dt h]
  exact ⟨rfl, rfl⟩

/-- C9 witness: the second sample fact has predicate p2, kept verbatim as
the key, and its label is the whole string since it has no slash. -/
theorem edge_label_and_key_witness :
    1 < sampleFacts.length ∧
      ((buildGraph rnd0 sampleFacts).edges.getD 1 defEdge).predicate =
        (sampleFacts.getD 1 fact1).predicate ∧
      ((buildGraph rnd0 sampleFacts).edges.getD 1 defEdge).label =
        lastSeg (sampleFacts.getD 1 fact1).predicate :=
  ⟨by decide, edge_label_and_key rnd0 sampleFacts 1 defEdge fact1 (by decide)⟩

theorem map_updateFirst (p : α → Bool) (f : α → α) (g : α → β)
    (h : ∀ a, g (f a) = g a) : ∀ l : List α,
    (updateFirst p f l).map g = l.map g
  | [] => rfl
  | x :: xs => by
    rw [updateFirst]
    by_cases hp : p x
    · rw [if_pos hp]
      simp [h x]
    · rw [if_neg hp]
      simp [map_updateFirst p f g h xs]

theorem ids_bump (ns : List Node) (k : String) :
    (bump ns k).map (fun n => n.id) = ns.map (fun n => n.id) :=
  map_updateFirst (fun n => n.id == k)
    (fun n => { n with connections := n.connections + 1 }) (fun n => n.id)
    (fun _ => rfl) ns

theorem mem_map_id_iff_any (ns : List Node) (k : String) :
    k ∈ ns.map (fun n => n.id) ↔ ns.any (fun n => n.id == k) = true := by
  rw [← exists_id_iff_mem_map, ← any_id_eq_true_iff]

theorem insKey_of_mem {acc : List String} {k : String} (h : k ∈ acc) :
    insKey acc k = acc := by
  rw [insKey, if_pos h]

theorem insKey_of_not_mem {acc : List String} {k : String} (h : k ∉ acc) :
    insKey acc k = acc ++ [k] := by
  rw [insKey, if_neg h]

theorem ids_buildStep (rnd : ℕ → ℚ) (t : Triplet) (i : ℕ) (st : BuildState) :
    (buildStep rnd st t i).nodes.map (fun n => n.id) =
      insKey (insKey (st.nodes.map (fun n => n.id)) t.subject) (objectId t i) := by
  rw [buildStep]
  dsimp only
  rw [ids_bump, ids_bump]
  by_cases hs : st.nodes.any (fun n => n.id == t.subject)
  · have hmem : t.subject ∈ st.nodes.map (fun n => n.id) :=
      (mem_map_id_iff_any _ _).2 hs
    rw [if_pos hs, insKey_of_mem hmem]
    by_cases ho : st.nodes.any (fun n => n.id == objectId t i)
    · have hmo : objectId t i ∈ st.nodes.map (fun n => n.id) :=
        (mem_map_id_iff_any _ _).2 ho
      rw [if_pos ho, insKey_of_mem hmo]
    · have hmo : objectId t i ∉ st.nodes.map (fun n => n.id) := fun hc =>
        ho ((mem_map_id_iff_any _ _).1 hc)
      rw [if_neg ho, insKey_of_not_mem hmo]
      simp [mkObjectNode]
  · have hmem : t.subject ∉ st.nodes.map (fun n => n.id) := fun hc =>
      hs ((mem_map_id_iff_any _ _).1 hc)
    rw [if_neg hs, insKey_of_not_mem hmem]
    have hids1 : (st.nodes ++ [mkSubjectNode rnd t i]).map (fun n => n.id) =
        st.nodes.map (fun n => n.id) ++ [t.subject] := by simp [mkSubjectNode]
    by_cases ho : (st.nodes ++ [mkSubjectNode rnd t i]).any (fun n => n.id == objectId t i)
    · have hmo : objectId t i ∈ st.nodes.map (fun n => n.id) ++ [t.subject] := by
        rw [← hids1]
        exact (mem_map_id_iff_any _ _).2 ho
      rw [if_pos ho, hids1, insKey_of_mem hmo]
    · have hmo : objectId t i ∉ st.nodes.map (fun n => n.id) ++ [t.subject] := by
        rw [← hids1]
        exact fun hc => ho ((mem_map_id_iff_any _ _).1 hc)
      rw [if_neg ho, insKey_of_not_mem hmo]
      simp [mkSubjectNode, mkObjectNode]

theorem ids_buildAux (rnd : ℕ → ℚ) : ∀ (ts : List Triplet) (i : ℕ) (st : BuildState),
    (buildAux rnd ts i st).nodes.map (fun n => n.id) =
      (keysFrom i ts).foldl insKey (st.nodes.map (fun n => n.id))
  | [], _, st => rfl
  | t :: ts, i, st => by
    rw [buildAux, ids_buildAux rnd ts (i + 1) (buildStep rnd st t i), keysFrom]
    simp only [List.foldl_cons]
    rw [ids_buildStep]

theorem foldl_insKey_nodup : ∀ (ks acc : List String), acc.Nodup →
    (ks.foldl insKey acc).Nodup
  | [], _, h => h
  | k :: ks, acc, h => by
    rw [List.foldl_cons]
    refine foldl_insKey_nodup ks (insKey acc k) ?_
    rw [insKey]
    by_cases hk : k ∈ acc
    · rw [if_pos hk]; exact h
    · rw [if_neg hk]
      rw [List.nodup_append]
      exact ⟨h, List.nodup_singleton k, by simpa using hk⟩

theorem foldl_insKey_toFinset : ∀ (ks acc : List String),
    (ks.foldl insKey acc).toFinset = acc.toFinset ∪ ks.toFinset
  | [], acc => by simp
  | k :: ks, acc => by
    rw [List.foldl_cons, foldl_insKey_toFinset ks (insKey acc k)]
    have hins : (insKey acc k).toFinset = insert k acc.toFinset := by
      rw [insKey]
      by_cases hk : k ∈ acc
      · rw [if_pos hk]
        exact (Finset.insert_eq_self.2 (List.mem_toFinset.2 hk)).symm
      · rw [if_neg hk]
        rw [List.toFinset_append]
        simp only [List.toFinset_cons, List.toFinset_nil, insert_emptyc_eq]
        rw [Finset.union_comm, ← Finset.insert_eq]
    rw [hins, List.toFinset_cons, Finset.insert_union, Finset.union_insert]

theorem length_foldl_insKey (ks : List String) :
    (ks.foldl insKey []).length = ks.toFinset.card := by
  have h1 : (ks.foldl insKey []).Nodup := foldl_insKey_nodup ks [] (by simp)
  have h2 : (ks.foldl insKey []).toFinset = ks.toFinset := by
    rw [foldl_insKey_toFinset]
    simp
  rw [← List.toFinset_card_of_nodup h1, h2]

theorem keysFrom_toFinset : ∀ (ts : List Triplet) (i : ℕ),
    (keysFrom i ts).toFinset =
      (ts.map (fun t => t.subject)).toFinset ∪ (oidsFrom i ts).toFinset
  | [], _ => by simp [keysFrom, oidsFrom]
  | t :: ts, i => by
    simp only [keysFrom, oidsFrom, List.map_cons, List.toFinset_cons,
      keysFrom_toFinset ts (i + 1)]
    ext a
    simp only [Finset.mem_insert, Finset.mem_union]
    tauto

theorem length_oidsFrom : ∀ (ts : List Triplet) (i : ℕ),
    (oidsFrom i ts).length = ts.length
  | [], _ => rfl
  | _ :: ts, i => by simp [oidsFrom, length_oidsFrom ts (i + 1)]

/-- C1 counterexample. Edge counts always match the fact count, but the
node-count formula fails when a subject value collides with an object node
key: for the single fact (subject x_0, predicate p, object x) the object
key of fact 0 is the string x_0, equal to the subject, so only one node is
created instead of two. -/
theorem buildGraph_counts_cex :
    (buildGraph rnd0 [⟨"x_0", "p", "x", none⟩]).edges.length = 1 ∧
      ¬ ((buildGraph rnd0 [⟨"x_0", "p", "x", none⟩]).nodes.length =
        (([(⟨"x_0", "p", "x", none⟩ : Triplet)]).map
            (fun t => t.subject)).dedup.length + 1) := by
  decide

/-- C1 as amended. For every fact list, colliding or not, the edge list has
exactly one edge per fact; and provided the derived node keys do not
collide, i.e. no subject value equals any object node key and the object
node keys are pairwise distinct, the node count is the number of distinct
subject values plus one object node per fact, objects never being
deduplicated. -/
theorem buildGraph_counts (rnd : ℕ → ℚ) (facts : List Triplet) :
    (buildGraph rnd facts).edges.length = facts.length ∧
      ((∀ t ∈ facts, t.subject ∉ oidsFrom 0 facts) → (oidsFrom 0 facts).Nodup →
        (buildGraph rnd facts).nodes.length =
          (facts.map (fun t => t.subject)).dedup.length + facts.length) := by
  constructor
  · rw [buildGraph, edges_buildAux]
    simp [length_edgesFrom]
  · intro h1 h2
    have hdisj : Disjoint (facts.map (fun t => t.subject)).toFinset
        (oidsFrom 0 facts).toFinset := by
      rw [Finset.disjoint_left]
      intro a ha hb
      obtain ⟨t, ht, hts⟩ := List.mem_map.1 (List.mem_toFinset.1 ha)
      exact h1 t ht (hts ▸ List.mem_toFinset.1 hb)
    have hmap := congrArg List.length (ids_buildAux rnd facts 0 ⟨[], [], []⟩)
    rw [List.length_map] at hmap
    rw [buildGraph, hmap]
    show ((keysFrom 0 facts).foldl insKey []).length = _
    rw [length_foldl_insKey, keysFrom_toFinset,
      Finset.card_union_of_disjoint hdisj, List.card_toFinset,
      List.toFinset_card_of_nodup h2, length_oidsFrom]

/-- C1 witness: the sample batch has no key collisions, three edges, and
two distinct subjects plus three object nodes. -/
theorem buildGraph_counts_witness :
    (∀ t ∈ sampleFacts, t.subject ∉ oidsFrom 0 sampleFacts) ∧
      (oidsFrom 0 sampleFacts).Nodup ∧
      (buildGraph rnd0 sampleFacts).edges.length = sampleFacts.length ∧
      (buildGraph rnd0 sampleFacts).nodes.length =
        (sampleFacts.map (fun t => t.subject)).dedup.length + sampleFacts.length :=
  ⟨by decide, by decide, (buildGraph_counts rnd0 sampleFacts).1,
    (buildGraph_counts rnd0 sampleFacts).2 (by decide) (by decide)⟩

end CsvRdf
